import Mathlib

/-!
Shallow embedding of the `rust-blockchain` repository's in-memory fork tree
(`src/blockchain/src/memory/mod.rs`), flat versioned state
(`src/blockchain/src/memory/state.rs`), overlayed state and the `ForkTree`
trait's derived `is_ancestor` (`src/blockchain/src/state.rs`,
`src/blockchain/src/chain.rs`).

Rust `HashMap`s are embedded as association lists with replace-on-insert
semantics; identifiers, keys and values are specialised to `Nat` (the
repository's code is generic; the test instantiates them with `u32`-based
types). Fallible Rust functions returning `Result` become `Except`; functions
that mutate `self` and may fail partway return the post-call state together
with an optional error, so that partial mutation on error paths is visible.
-/

namespace RustBlockchain

/-- `HashMap::get` on an association list: first binding for the key. -/
def alook {α : Type} (k : Nat) : List (Nat × α) → Option α
  | [] => none
  | (k', v) :: rest => if k' = k then some v else alook k rest

/-- `HashMap::insert`: replace the existing binding, else append a new one. -/
def aupsert {α : Type} (k : Nat) (v : α) : List (Nat × α) → List (Nat × α)
  | [] => [(k, v)]
  | (k', v') :: rest =>
    if k' = k then (k, v) :: rest else (k', v') :: aupsert k v rest

/-- `HashMap::get_mut` followed by an in-place update of the found value. -/
def amodify {α : Type} (k : Nat) (f : α → α) : List (Nat × α) → List (Nat × α)
  | [] => []
  | (k', v) :: rest =>
    if k' = k then (k', f v) :: rest else (k', v) :: amodify k f rest

/-- `HashMap::entry(k).or_default()` then an update of the entry. -/
def aentry {α : Type} (k : Nat) (dflt : α) (f : α → α) :
    List (Nat × α) → List (Nat × α)
  | [] => [(k, f dflt)]
  | (k', v) :: rest =>
    if k' = k then (k', f v) :: rest else (k', v) :: aentry k dflt f rest

/-- A block as used by the fork tree: the `Identified` capability of
`src/blockchain/src/block.rs` (an identifier and an optional parent
identifier), specialised to `Nat` identifiers. -/
structure Block where
  id : Nat
  parentId : Option Nat
deriving DecidableEq, Repr

/-- `MemoryForkTreeItem` from `src/blockchain/src/memory/mod.rs`. -/
structure MemoryForkTreeItem where
  block : Block
  depth : Nat
  children : List Nat
  ancestors : List (Nat × Nat)
deriving DecidableEq, Repr

/-- `MemoryForkTree` from `src/blockchain/src/memory/mod.rs`. -/
structure MemoryForkTree where
  blocks : List (Nat × MemoryForkTreeItem)
  depths : List (Nat × List Nat)
deriving DecidableEq, Repr

/-- `MemoryForkTree::new`. -/
def MemoryForkTree.new : MemoryForkTree := ⟨[], []⟩

/-- `MemoryForkTreeQueryError` from `src/blockchain/src/memory/mod.rs`. -/
inductive MemoryForkTreeQueryError where
  | UnknownBlock
  | InvalidAncestorDepth
deriving DecidableEq, Repr

/-- `MemoryForkTreeInsertError` from `src/blockchain/src/memory/mod.rs`. -/
inductive MemoryForkTreeInsertError where
  | UnknownParent
  | Query (e : MemoryForkTreeQueryError)
deriving DecidableEq, Repr

/-- `MemoryForkTree::block`. -/
def MemoryForkTree.block (ft : MemoryForkTree) (id : Nat) :
    Except MemoryForkTreeQueryError Block :=
  match alook id ft.blocks with
  | none => .error .UnknownBlock
  | some item => .ok item.block

/-- `MemoryForkTree::block_depth`. -/
def MemoryForkTree.block_depth (ft : MemoryForkTree) (id : Nat) :
    Except MemoryForkTreeQueryError Nat :=
  match alook id ft.blocks with
  | none => .error .UnknownBlock
  | some item => .ok item.depth

/-- The skip-list hop choice inside `ancestor_id_at_depth`'s loop:
`ancestors.iter().filter(|(d, _)| *d >= ancestor_depth).reduce(min by depth)`
(ties keep the earlier element, as the Rust `reduce` closure does). -/
def minSkip (ancestor_depth : Nat) (ancestors : List (Nat × Nat)) :
    Option (Nat × Nat) :=
  (ancestors.filter (fun p => decide (ancestor_depth ≤ p.1))).foldl
    (fun acc p =>
      match acc with
      | none => some p
      | some (min_depth, min_id) =>
        if p.1 < min_depth then some p else some (min_depth, min_id))
    none

/-- The `loop` body of `MemoryForkTree::ancestor_id_at_depth`. The Rust loop
has no structural termination measure, so it is given fuel; the caller passes
`depth + 1`, and the guard preceding the loop means at most one iteration is
ever reachable, so the fuel is never exhausted on a reachable path. -/
def ancestorLoop (ft : MemoryForkTree) (ancestor_depth : Nat) :
    Nat → MemoryForkTreeItem → Except MemoryForkTreeQueryError Nat
  | 0, _ => .error .UnknownBlock
  | fuel + 1, current =>
    if current.depth < ancestor_depth then .error .InvalidAncestorDepth
    else if current.depth = ancestor_depth then .ok current.block.id
    else
      match current.block.parentId with
      | none => .error .InvalidAncestorDepth
      | some parent_id =>
        let next_ancestor_id :=
          match minSkip ancestor_depth current.ancestors with
          | some (_, i) => i
          | none => parent_id
        match alook next_ancestor_id ft.blocks with
        | none => .error .UnknownBlock
        | some next => ancestorLoop ft ancestor_depth fuel next

/-- `MemoryForkTree::ancestor_id_at_depth` from
`src/blockchain/src/memory/mod.rs` lines 63-116, including the guard
`if current_block.depth >= ancestor_depth { return Err(InvalidAncestorDepth) }`
that precedes the loop. -/
def MemoryForkTree.ancestor_id_at_depth (ft : MemoryForkTree) (id : Nat)
    (ancestor_depth : Nat) : Except MemoryForkTreeQueryError Nat :=
  match alook id ft.blocks with
  | none => .error .UnknownBlock
  | some current_block =>
    if current_block.depth ≥ ancestor_depth then .error .InvalidAncestorDepth
    else ancestorLoop ft ancestor_depth (current_block.depth + 1) current_block

/-- `ForkTree::is_ancestor`, the provided trait method of
`src/blockchain/src/chain.rs` lines 41-49. -/
def MemoryForkTree.is_ancestor (ft : MemoryForkTree) (id ancestor_id : Nat) :
    Except MemoryForkTreeQueryError Bool :=
  match ft.block_depth ancestor_id with
  | .error e => .error e
  | .ok ancestor_depth =>
    match ft.ancestor_id_at_depth id ancestor_depth with
    | .error e => .error e
    | .ok a => .ok (decide (a = ancestor_id))

/-- `SKIP_DEPTHS` from `src/blockchain/src/memory/mod.rs`: `[4^1, ..., 4^16]`. -/
def SKIP_DEPTHS : List Nat :=
  [4 ^ 1, 4 ^ 2, 4 ^ 3, 4 ^ 4, 4 ^ 5, 4 ^ 6, 4 ^ 7, 4 ^ 8,
   4 ^ 9, 4 ^ 10, 4 ^ 11, 4 ^ 12, 4 ^ 13, 4 ^ 14, 4 ^ 15, 4 ^ 16]

/-- `itertools::unique` keeping the first occurrence, with an explicit seen
set. -/
def uniqueAux : List Nat → List Nat → List Nat
  | [], _ => []
  | x :: rest, seen =>
    if x ∈ seen then uniqueAux rest seen else x :: uniqueAux rest (x :: seen)

/-- `itertools::unique` on a list of naturals. -/
def uniqueList (l : List Nat) : List Nat := uniqueAux l []

/-- The `ancestor_depths` iterator built inside `MemoryForkTree::insert`:
skip magnitudes dividing `depth` and not exceeding it, mapped to target
depths, deduplicated. -/
def skipTargets (depth : Nat) : List Nat :=
  uniqueList
    ((SKIP_DEPTHS.filter
        (fun skip_depth => decide (skip_depth ≤ depth ∧ depth % skip_depth = 0))).map
      (fun skip_depth => depth - skip_depth))

/-- The `for ancestor_depth in ancestor_depths` loop of
`MemoryForkTree::insert`: resolve each target depth through
`ancestor_id_at_depth` on the parent, propagating the first error. -/
def resolveAncestors (ft : MemoryForkTree) (parent_id : Nat) :
    List Nat → Except MemoryForkTreeQueryError (List (Nat × Nat))
  | [] => .ok []
  | ancestor_depth :: rest =>
    match ft.ancestor_id_at_depth parent_id ancestor_depth with
    | .error e => .error e
    | .ok i =>
      match resolveAncestors ft parent_id rest with
      | .error e => .error e
      | .ok tail => .ok ((ancestor_depth, i) :: tail)

/-- `MemoryForkTree::insert` from `src/blockchain/src/memory/mod.rs` lines
153-206. The Rust method mutates `self` and may fail after having pushed the
new identifier onto the parent's `children`, so the embedding returns the
post-call tree together with the optional error. -/
def MemoryForkTree.insert (ft : MemoryForkTree) (block : Block) :
    MemoryForkTree × Option MemoryForkTreeInsertError :=
  let block_id := block.id
  match block.parentId with
  | some parent_id =>
    match alook parent_id ft.blocks with
    | none => (ft, some .UnknownParent)
    | some parent =>
      let ft1 : MemoryForkTree :=
        { ft with
          blocks := amodify parent_id
            (fun it => { it with children := it.children ++ [block_id] })
            ft.blocks }
      let depth := parent.depth + 1
      match resolveAncestors ft1 parent_id (skipTargets depth) with
      | .error e => (ft1, some (.Query e))
      | .ok ancestors =>
        ({ blocks := aupsert block_id ⟨block, depth, [], ancestors⟩ ft1.blocks,
           depths := aentry depth [] (fun l => l ++ [block_id]) ft1.depths },
         none)
  | none =>
    ({ blocks := aupsert block_id ⟨block, 0, [], []⟩ ft.blocks,
       depths := aentry 0 [] (fun l => l ++ [block_id]) ft.depths },
     none)

/-- `MemoryFlatState` from `src/blockchain/src/memory/state.rs`:
`key -> depth -> block_id -> optional value`, with keys and values
specialised to `Nat`. -/
structure MemoryFlatState where
  state : List (Nat × List (Nat × List (Nat × Option Nat)))
deriving DecidableEq, Repr

/-- `MemoryFlatState::new`. -/
def MemoryFlatState.new : MemoryFlatState := ⟨[]⟩

/-- The inner loop of `MemoryFlatState::get`: scan the `(writer id, value)`
pairs recorded at one depth and return the first whose writer is an ancestor
of `block_id`, propagating `is_ancestor` errors. -/
def scanIds (ft : MemoryForkTree) (block_id : Nat) :
    List (Nat × Option Nat) →
      Except MemoryForkTreeQueryError (Option (Option Nat))
  | [] => .ok none
  | (search_id, search_value) :: rest =>
    match ft.is_ancestor block_id search_id with
    | .error e => .error e
    | .ok true => .ok (some search_value)
    | .ok false => scanIds ft block_id rest

/-- One step of the descending-depth scan of `MemoryFlatState::get`: the
entries recorded at depth `d`, if any. -/
def scanDepthStep (ft : MemoryForkTree) (block_id : Nat)
    (depth_to_id_value : List (Nat × List (Nat × Option Nat))) (d : Nat) :
    Except MemoryForkTreeQueryError (Option (Option Nat)) :=
  match alook d depth_to_id_value with
  | none => .ok none
  | some entries => scanIds ft block_id entries

/-- The `search_range` traversal of `MemoryFlatState::get`: `BTreeMap::range`
up to and including the block's depth, in reverse (descending) order,
returning at the first hit. -/
def scanDepths (ft : MemoryForkTree) (block_id : Nat)
    (depth_to_id_value : List (Nat × List (Nat × Option Nat))) :
    Nat → Except MemoryForkTreeQueryError (Option Nat)
  | 0 =>
    match scanDepthStep ft block_id depth_to_id_value 0 with
    | .error e => .error e
    | .ok (some v) => .ok v
    | .ok none => .ok none
  | d + 1 =>
    match scanDepthStep ft block_id depth_to_id_value (d + 1) with
    | .error e => .error e
    | .ok (some v) => .ok v
    | .ok none => scanDepths ft block_id depth_to_id_value d

/-- `MemoryFlatState::get` from `src/blockchain/src/memory/state.rs` lines
39-61. When the key has no recorded history the function returns `Ok(None)`
without consulting the fork tree, exactly as the Rust code does. -/
def MemoryFlatState.get (s : MemoryFlatState) (key : Nat) (block_id : Nat)
    (ft : MemoryForkTree) : Except MemoryForkTreeQueryError (Option Nat) :=
  match alook key s.state with
  | none => .ok none
  | some depth_to_id_value =>
    match ft.block_depth block_id with
    | .error e => .error e
    | .ok depth => scanDepths ft block_id depth_to_id_value depth

/-- One changeset entry of `MemoryFlatState::apply`:
`state.entry(key).or_default().entry(depth).or_default().insert(block_id, value)`. -/
def applyOne (st : List (Nat × List (Nat × List (Nat × Option Nat))))
    (key depth block_id : Nat) (value : Option Nat) :
    List (Nat × List (Nat × List (Nat × Option Nat))) :=
  aentry key [] (fun dm => aentry depth [] (fun im => aupsert block_id value im) dm) st

/-- `MemoryFlatState::apply` from `src/blockchain/src/memory/state.rs` lines
74-92. The depth lookup precedes every write, so on error the returned state
is the input state. -/
def MemoryFlatState.apply (s : MemoryFlatState)
    (changeset : List (Nat × Option Nat)) (block_id : Nat)
    (ft : MemoryForkTree) : MemoryFlatState × Option MemoryForkTreeQueryError :=
  match ft.block_depth block_id with
  | .error e => (s, some e)
  | .ok depth =>
    (⟨changeset.foldl (fun st kv => applyOne st kv.1 depth block_id kv.2)
        s.state⟩,
     none)

/-- `OverlayedFlatState` from `src/blockchain/src/state.rs` lines 73-110,
holding the referenced flat state and fork tree by value. -/
structure OverlayedFlatState where
  flat_state : MemoryFlatState
  fork_tree : MemoryForkTree
  block_id : Nat
  changeset : List (Nat × Option Nat)
deriving DecidableEq, Repr

/-- `FlatState::overlayed`. -/
def MemoryFlatState.overlayed (s : MemoryFlatState) (block_id : Nat)
    (ft : MemoryForkTree) : OverlayedFlatState :=
  ⟨s, ft, block_id, []⟩

/-- `OverlayedFlatState::get`. -/
def OverlayedFlatState.get (o : OverlayedFlatState) (key : Nat) :
    Except MemoryForkTreeQueryError (Option Nat) :=
  match alook key o.changeset with
  | some value => .ok value
  | none => o.flat_state.get key o.block_id o.fork_tree

/-- `OverlayedFlatState::insert`. -/
def OverlayedFlatState.insert (o : OverlayedFlatState) (key value : Nat) :
    OverlayedFlatState :=
  { o with changeset := aupsert key (some value) o.changeset }

/-- `OverlayedFlatState::remove`. -/
def OverlayedFlatState.remove (o : OverlayedFlatState) (key : Nat) :
    OverlayedFlatState :=
  { o with changeset := aupsert key none o.changeset }

/-- Modelled from the spec: the Transactional Wrapper (`MemoryTransactional`,
spec §4.4) is used by the repository's test suite but its source file is not
present under `src/`. It holds two independent replicas of the wrapped state;
only `first` is exposed to readers. -/
structure MemoryTransactional (σ : Type) where
  first : σ
  second : σ
deriving DecidableEq, Repr

/-- Modelled from the spec: both replicas start identical. -/
def MemoryTransactional.new {σ : Type} (s : σ) : MemoryTransactional σ :=
  ⟨s, s⟩

/-- Modelled from the spec (§4.4): run `f` against `first`; on success run it
against `second`, overwriting `second` with a copy of `first`'s result when
the second run fails; if the run against `first` fails, restore `first` from
a deep copy of `second` and propagate the error. The closure is modelled as
a state function returning the possibly partially-mutated state together
with its result, so partial mutation before a failure is visible. -/
def MemoryTransactional.apply {σ ε ρ : Type} (t : MemoryTransactional σ)
    (f : σ → σ × Except ε ρ) : MemoryTransactional σ × Except ε ρ :=
  let r1 := f t.first
  match r1.2 with
  | .error e => (⟨t.second, t.second⟩, .error e)
  | .ok r =>
    let r2 := f t.second
    match r2.2 with
    | .error _ => (⟨r1.1, r1.1⟩, .ok r)
    | .ok _ => (⟨r1.1, r2.1⟩, .ok r)

/-! ### Helper lemmas about the association-list operations -/

theorem alook_aupsert_self {α : Type} (k : Nat) (v : α) (l : List (Nat × α)) :
    alook k (aupsert k v l) = some v := by
  induction l with
  | nil => simp [alook, aupsert]
  | cons hd tl ih =>
    by_cases h : hd.1 = k
    · simp [alook, aupsert, h]
    · simpa [alook, aupsert, h] using ih

theorem alook_aupsert_ne {α : Type} (k k' : Nat) (v : α) (l : List (Nat × α))
    (h : k' ≠ k) : alook k' (aupsert k v l) = alook k' l := by
  induction l with
  | nil => simp [alook, aupsert, Ne.symm h]
  | cons hd tl ih =>
    by_cases hk : hd.1 = k
    · subst hk
      simp [alook, aupsert, Ne.symm h, h]
    · by_cases hk' : hd.1 = k' <;> simp [alook, aupsert, hk, hk', ih, h]

theorem alook_amodify_self {α : Type} (k : Nat) (f : α → α) (v : α)
    (l : List (Nat × α)) (h : alook k l = some v) :
    alook k (amodify k f l) = some (f v) := by
  induction l with
  | nil => simp [alook] at h
  | cons hd tl ih =>
    by_cases hk : hd.1 = k
    · simp [alook, hk] at h
      simp [alook, amodify, hk, h]
    · simp [alook, hk] at h
      simpa [alook, amodify, hk] using ih h

theorem alook_amodify_ne {α : Type} (k k' : Nat) (f : α → α)
    (l : List (Nat × α)) (h : k' ≠ k) :
    alook k' (amodify k f l) = alook k' l := by
  induction l with
  | nil => simp [amodify]
  | cons hd tl ih =>
    by_cases hk : hd.1 = k
    · subst hk
      simp [alook, amodify, Ne.symm h, h]
    · by_cases hk' : hd.1 = k' <;> simp [alook, amodify, hk, hk', ih, h]

/-! ### The ancestor query always fails

The guard at the top of `MemoryForkTree::ancestor_id_at_depth`
(`src/blockchain/src/memory/mod.rs` line 73) rejects every call where the
block's depth is greater than or equal to the requested depth, and the first
check inside the loop rejects the remaining calls, so the function returns an
error on every input. -/

theorem ancestorLoop_lt_err (ft : MemoryForkTree) (ancestor_depth fuel : Nat)
    (cur : MemoryForkTreeItem) (h : cur.depth < ancestor_depth) :
    ancestorLoop ft ancestor_depth (fuel + 1) cur =
      .error .InvalidAncestorDepth := by
  simp [ancestorLoop, h]

theorem ancestor_id_at_depth_always_error (ft : MemoryForkTree)
    (id ancestor_depth : Nat) :
    ft.ancestor_id_at_depth id ancestor_depth =
      .error (match alook id ft.blocks with
              | none => .UnknownBlock
              | some _ => .InvalidAncestorDepth) := by
  unfold MemoryForkTree.ancestor_id_at_depth
  cases h : alook id ft.blocks with
  | none => rfl
  | some cur =>
    by_cases hd : cur.depth ≥ ancestor_depth
    · simp [hd]
    · have hlt : cur.depth < ancestor_depth := Nat.lt_of_not_le hd
      simp [hd, ancestorLoop_lt_err ft ancestor_depth cur.depth cur hlt]

theorem resolveAncestors_ok (ft : MemoryForkTree) (parent_id : Nat)
    (l : List Nat) (out : List (Nat × Nat))
    (h : resolveAncestors ft parent_id l = .ok out) : l = [] ∧ out = [] := by
  cases l with
  | nil =>
    simp [resolveAncestors] at h
    exact ⟨rfl, h⟩
  | cons d rest =>
    rw [resolveAncestors, ancestor_id_at_depth_always_error] at h
    cases halook : alook parent_id ft.blocks <;> simp [halook] at h

/-! ### Concrete fixtures: a genesis block and a simple linear chain -/

/-- A genesis block with identifier 0 and no parent. -/
def genesisBlock : Block := ⟨0, none⟩

/-- The chain block with identifier `i` and parent `i - 1`. -/
def chainBlock (i : Nat) : Block := ⟨i, some (i - 1)⟩

/-- The fork tree holding only the genesis block. -/
def tree0 : MemoryForkTree := (MemoryForkTree.new.insert genesisBlock).1

/-- The fork tree holding the chain 0 → 1 → 2. -/
def treeGAB : MemoryForkTree :=
  ((tree0.insert (chainBlock 1)).1.insert (chainBlock 2)).1

/-- The fork tree holding the chain 0 → 1 → 2 → 3. -/
def tree3 : MemoryForkTree := (treeGAB.insert (chainBlock 3)).1

/-- The flat state produced by the spec's concrete scenario: value 1 written
for key 100 at the genesis block 0, then value 2 written for key 100 at
block 1. -/
def stateGAB : MemoryFlatState :=
  ((MemoryFlatState.new.apply [(100, some 1)] 0 treeGAB).1.apply
    [(100, some 2)] 1 treeGAB).1

/-- The fork tree as it stands in the middle of `MemoryForkTree::insert`,
after the parent's `children` list has been extended with the new block's
identifier but before the new block itself is stored. -/
def childPushed (ft : MemoryForkTree) (pid bid : Nat) : MemoryForkTree :=
  { ft with
    blocks := amodify pid
      (fun it => { it with children := it.children ++ [bid] }) ft.blocks }

/-- Characterization of `MemoryForkTree::insert` when the declared parent is
present: the result is determined by whether any skip magnitude divides the
new depth, because every internal `ancestor_id_at_depth` call fails. -/
theorem insert_known_parent (ft : MemoryForkTree) (b : Block) (pid : Nat)
    (parent : MemoryForkTreeItem) (hp : b.parentId = some pid)
    (hpar : alook pid ft.blocks = some parent) :
    ft.insert b =
      if skipTargets (parent.depth + 1) = [] then
        ({ blocks := aupsert b.id ⟨b, parent.depth + 1, [], []⟩
             (childPushed ft pid b.id).blocks,
           depths := aentry (parent.depth + 1) [] (fun l => l ++ [b.id])
             (childPushed ft pid b.id).depths },
         none)
      else (childPushed ft pid b.id, some (.Query .InvalidAncestorDepth)) := by
  have hpar' : alook pid (childPushed ft pid b.id).blocks =
      some { parent with children := parent.children ++ [b.id] } :=
    alook_amodify_self pid _ parent ft.blocks hpar
  unfold MemoryForkTree.insert
  rw [hp]
  simp only [hpar]
  cases hl : skipTargets (parent.depth + 1) with
  | nil => simp [hl, resolveAncestors, childPushed]
  | cons d rest =>
    have hres : resolveAncestors (childPushed ft pid b.id) pid (d :: rest) =
        .error .InvalidAncestorDepth := by
      rw [resolveAncestors, ancestor_id_at_depth_always_error, hpar']
    simp only [childPushed] at hres
    simp [hl, hres, childPushed]

/-- C1 (code bug): the claim — backed by the `ForkTree` trait documentation in
`src/blockchain/src/chain.rs` — states that `ancestor_id_at_depth(a, d)`
returns `a` itself when `d` is `a`'s own depth. The implementation instead
fails on every input: the guard at `src/blockchain/src/memory/mod.rs` line 73
returns `InvalidAncestorDepth` whenever the block's depth is greater than or
equal to the requested depth, and the loop's first check rejects the rest. At
the failing input — a tree holding only the genesis block 0 at depth 0 — the
query for depth 0 errors instead of returning 0. -/
theorem c1_ancestor_at_own_depth_errors :
    (MemoryForkTree.new.insert genesisBlock).2 = none ∧
    tree0.block_depth 0 = .ok 0 ∧
    tree0.ancestor_id_at_depth 0 0 = .error .InvalidAncestorDepth :=
  ⟨rfl, rfl, rfl⟩

/-- C2 (code bug): the claim states that along a linear chain b0 → … → bn
every insert succeeds and ancestor/is-ancestor queries resolve. On the chain
0 → 1 → 2 → 3 → 4 the first four inserts do succeed, but the insert of block
4 (depth 4, the first depth divisible by a skip magnitude) fails with
`Query(InvalidAncestorDepth)`, and both `ancestor_id_at_depth(1, 0)` and
`is_ancestor(1, 0)` fail instead of returning block 0 and `true`. -/
theorem c2_chain_queries_error :
    (MemoryForkTree.new.insert genesisBlock).2 = none ∧
    (tree0.insert (chainBlock 1)).2 = none ∧
    ((tree0.insert (chainBlock 1)).1.insert (chainBlock 2)).2 = none ∧
    (treeGAB.insert (chainBlock 3)).2 = none ∧
    (tree3.insert (chainBlock 4)).2 = some (.Query .InvalidAncestorDepth) ∧
    tree3.ancestor_id_at_depth 1 0 = .error .InvalidAncestorDepth ∧
    tree3.is_ancestor 1 0 = .error .InvalidAncestorDepth :=
  ⟨rfl, rfl, rfl, rfl, rfl, rfl, rfl⟩

/-- C3 (code bug): the claim states the apply/get round-trip returns the
written value (or `None` after a tombstone). After `apply([(5, Some 7)], 0)`
against the genesis-only tree, `get(5, 0)` fails with `InvalidAncestorDepth`
instead of returning `Some 7`, because `get`'s `is_ancestor` check propagates
the `ancestor_id_at_depth` failure; the tombstone half fails the same way. -/
theorem c3_apply_get_roundtrip_errors :
    (MemoryFlatState.new.apply [(5, some 7)] 0 tree0).2 = none ∧
    (MemoryFlatState.new.apply [(5, some 7)] 0 tree0).1.get 5 0 tree0
      = .error .InvalidAncestorDepth ∧
    (MemoryFlatState.new.apply [(5, none)] 0 tree0).2 = none ∧
    (MemoryFlatState.new.apply [(5, none)] 0 tree0).1.get 5 0 tree0
      = .error .InvalidAncestorDepth :=
  ⟨rfl, rfl, rfl, rfl⟩

/-- C4 (code bug): the spec's concrete scenario — genesis 0, child 1, grand-
child 2, value 1 written for key 100 at block 0 and value 2 at block 1 —
claims `get(100, 2) = Some 2` and `get(100, 0) = Some 1`. Both applies
succeed, but both reads fail with `InvalidAncestorDepth` because every
`is_ancestor` check inside `get` propagates the `ancestor_id_at_depth`
failure. -/
theorem c4_concrete_scenario_errors :
    (MemoryFlatState.new.apply [(100, some 1)] 0 treeGAB).2 = none ∧
    ((MemoryFlatState.new.apply [(100, some 1)] 0 treeGAB).1.apply
      [(100, some 2)] 1 treeGAB).2 = none ∧
    stateGAB.get 100 2 treeGAB = .error .InvalidAncestorDepth ∧
    stateGAB.get 100 0 treeGAB = .error .InvalidAncestorDepth :=
  ⟨rfl, rfl, rfl, rfl⟩

/-- C5: `insert` fails with `UnknownParent` exactly when the block declares a
parent identifier that is not stored; a block with no parent identifier is
accepted unconditionally as a root and stored at depth 0. -/
theorem c5_insert_unknown_parent_iff (ft : MemoryForkTree) (b : Block) :
    (∀ pid, b.parentId = some pid →
      ((ft.insert b).2 = some .UnknownParent ↔ alook pid ft.blocks = none)) ∧
    (b.parentId = none →
      (ft.insert b).2 = none ∧
      ∃ item, alook b.id (ft.insert b).1.blocks = some item ∧
        item.depth = 0) := by
  constructor
  · intro pid hp
    constructor
    · intro h
      cases hpar : alook pid ft.blocks with
      | none => rfl
      | some parent =>
        rw [insert_known_parent ft b pid parent hp hpar] at h
        by_cases hl : skipTargets (parent.depth + 1) = [] <;> simp [hl] at h
    · intro hnone
      unfold MemoryForkTree.insert
      rw [hp]
      simp [hnone]
  · intro hp
    refine ⟨?_, ⟨b, 0, [], []⟩, ?_, rfl⟩
    · unfold MemoryForkTree.insert
      rw [hp]
    · unfold MemoryForkTree.insert
      rw [hp]
      simpa using alook_aupsert_self b.id _ ft.blocks

/-- Witness for C5: on the genesis-only tree, inserting a block declaring the
absent parent 5 fails with `UnknownParent`, and inserting the parentless
block 7 succeeds and stores it at depth 0. -/
theorem c5_witness :
    (tree0.insert ⟨1, some 5⟩).2 = some .UnknownParent ∧
    ((tree0.insert ⟨7, none⟩).2 = none ∧
      ∃ item, alook 7 (tree0.insert ⟨7, none⟩).1.blocks = some item ∧
        item.depth = 0) :=
  ⟨((c5_insert_unknown_parent_iff tree0 ⟨1, some 5⟩).1 5 rfl).mpr rfl,
   (c5_insert_unknown_parent_iff tree0 ⟨7, none⟩).2 rfl⟩

/-- C6: when a block is successfully inserted, its recorded `ancestors` list
consists exactly of the pairs `(d - m, ancestor of the parent at depth d - m)`
for the qualifying skip magnitudes with equal target depths deduplicated
(`skipTargets`), each entry resolved through `ancestor_id_at_depth`; a root's
`ancestors` list is empty. -/
theorem c6_success_ancestors (ft : MemoryForkTree) (b : Block)
    (hok : (ft.insert b).2 = none) :
    ∃ item, alook b.id (ft.insert b).1.blocks = some item ∧
      (b.parentId = none → item.ancestors = []) ∧
      ∀ pid parent, b.parentId = some pid →
        alook pid ft.blocks = some parent →
        item.ancestors.map Prod.fst = skipTargets (parent.depth + 1) ∧
        ∀ q ∈ item.ancestors,
          ft.ancestor_id_at_depth pid q.1 = .ok q.2 := by
  cases hp : b.parentId with
  | none =>
    refine ⟨⟨b, 0, [], []⟩, ?_, fun _ => rfl, ?_⟩
    · unfold MemoryForkTree.insert
      rw [hp]
      simpa using alook_aupsert_self b.id _ ft.blocks
    · intro pid parent hps _
      exact absurd hps (by simp)
  | some pid =>
    cases hpar : alook pid ft.blocks with
    | none =>
      unfold MemoryForkTree.insert at hok
      rw [hp] at hok
      simp [hpar] at hok
    | some parent =>
      rw [insert_known_parent ft b pid parent hp hpar] at hok ⊢
      by_cases hl : skipTargets (parent.depth + 1) = []
      · rw [if_pos hl] at hok ⊢
        refine ⟨⟨b, parent.depth + 1, [], []⟩, ?_, ?_, ?_⟩
        · simpa using alook_aupsert_self b.id _ _
        · intro h0
          exact absurd h0 (by simp)
        · intro pid' parent' hps hpar'
          injection hps with hps
          subst hps
          rw [hpar] at hpar'
          injection hpar' with hpar'
          subst hpar'
          exact ⟨by rw [hl]; rfl, by intro q hq; simp at hq⟩
      · rw [if_neg hl] at hok
        exact absurd hok (by simp)

/-- Witness for C6: inserting block 1 on the genesis-only tree succeeds
(depth 1 matches no skip magnitude) and stores an empty ancestors list,
which is exactly the deduplicated qualifying target list for depth 1. -/
theorem c6_witness :
    ∃ item, alook (chainBlock 1).id (tree0.insert (chainBlock 1)).1.blocks
        = some item ∧
      ((chainBlock 1).parentId = none → item.ancestors = []) ∧
      ∀ pid parent, (chainBlock 1).parentId = some pid →
        alook pid tree0.blocks = some parent →
        item.ancestors.map Prod.fst = skipTargets (parent.depth + 1) ∧
        ∀ q ∈ item.ancestors,
          tree0.ancestor_id_at_depth pid q.1 = .ok q.2 :=
  c6_success_ancestors tree0 (chainBlock 1) rfl

/-- C7 (modelled from the spec, §4.4): if the applied closure returns an
error, the exposed first replica is unchanged from before the call (the
wrapper restores it from the `second` replica, which equals `first` between
operations) and the error is propagated to the caller. -/
theorem c7_transactional_error_restores {σ ε ρ : Type}
    (t : MemoryTransactional σ) (f : σ → σ × Except ε ρ) (e : ε)
    (hsync : t.second = t.first) (hf : (f t.first).2 = .error e) :
    (t.apply f).1.first = t.first ∧ (t.apply f).2 = .error e := by
  simp only [MemoryTransactional.apply, hf]
  exact ⟨hsync, trivial⟩

/-- Witness for C7: a closure that increments the state and then fails
leaves the exposed replica at its initial value 5 and propagates error 0. -/
theorem c7_witness :
    ((MemoryTransactional.new 5).apply
      (fun s : Nat => (s + 1, (.error 0 : Except Nat Nat)))).1.first = 5 ∧
    ((MemoryTransactional.new 5).apply
      (fun s : Nat => (s + 1, (.error 0 : Except Nat Nat)))).2 = .error 0 :=
  c7_transactional_error_restores (MemoryTransactional.new 5)
    (fun s => (s + 1, .error 0)) 0 rfl rfl

/-- C8: `OverlayedFlatState::get` returns the locally buffered value when one
is present (a buffered tombstone comes back as `Ok None`), and otherwise
delegates to the underlying flat state's `get` against the bound block and
fork tree; `insert` and `remove` touch only the overlay's local buffer. -/
theorem c8_overlay_get_insert_remove (o : OverlayedFlatState)
    (key value : Nat) :
    (∀ v, alook key o.changeset = some v → o.get key = .ok v) ∧
    (alook key o.changeset = none →
      o.get key = o.flat_state.get key o.block_id o.fork_tree) ∧
    (o.insert key value).flat_state = o.flat_state ∧
    (o.insert key value).fork_tree = o.fork_tree ∧
    (o.insert key value).block_id = o.block_id ∧
    (o.remove key).flat_state = o.flat_state ∧
    (o.remove key).fork_tree = o.fork_tree ∧
    (o.remove key).block_id = o.block_id := by
  refine ⟨?_, ?_, rfl, rfl, rfl, rfl, rfl, rfl⟩
  · intro v hv
    unfold OverlayedFlatState.get
    rw [hv]
  · intro h
    unfold OverlayedFlatState.get
    rw [h]

/-- An overlay with a buffered value for key 1 and a buffered tombstone for
key 3, used as the C8 witness input. -/
def ovSome : OverlayedFlatState :=
  ⟨MemoryFlatState.new, MemoryForkTree.new, 0, [(1, some 2), (3, none)]⟩

/-- An overlay with an empty local buffer, used as the C8 witness input. -/
def ovNone : OverlayedFlatState :=
  ⟨MemoryFlatState.new, MemoryForkTree.new, 0, []⟩

/-- Witness for C8: buffered value and tombstone are returned from the
buffer, an empty buffer delegates to the flat state, and insert/remove leave
the underlying flat state untouched. -/
theorem c8_witness :
    ovSome.get 1 = .ok (some 2) ∧
    ovSome.get 3 = .ok none ∧
    ovNone.get 1 = ovNone.flat_state.get 1 ovNone.block_id ovNone.fork_tree ∧
    (ovSome.insert 1 9).flat_state = ovSome.flat_state ∧
    (ovSome.remove 1).flat_state = ovSome.flat_state :=
  ⟨(c8_overlay_get_insert_remove ovSome 1 9).1 (some 2) rfl,
   (c8_overlay_get_insert_remove ovSome 3 9).1 none rfl,
   (c8_overlay_get_insert_remove ovNone 1 9).2.1 rfl,
   (c8_overlay_get_insert_remove ovSome 1 9).2.2.1,
   (c8_overlay_get_insert_remove ovSome 1 9).2.2.2.2.2.1⟩

/-- C9: when `insert` fails with a `Query` error during skip-ancestor
resolution, the new block has not been added to the block map, yet the
declared parent's `children` list has already been extended with the new
block's identifier — the failed insert leaves the tree modified. -/
theorem c9_failed_insert_mutates (ft : MemoryForkTree) (b : Block)
    (pid : Nat) (parent : MemoryForkTreeItem) (e : MemoryForkTreeQueryError)
    (hp : b.parentId = some pid) (hpar : alook pid ft.blocks = some parent)
    (hnew : alook b.id ft.blocks = none)
    (herr : (ft.insert b).2 = some (.Query e)) :
    alook b.id (ft.insert b).1.blocks = none ∧
    ∃ item, alook pid (ft.insert b).1.blocks = some item ∧
      item.children = parent.children ++ [b.id] := by
  have hne : b.id ≠ pid := by
    intro h
    rw [h, hpar] at hnew
    exact Option.noConfusion hnew
  rw [insert_known_parent ft b pid parent hp hpar] at herr ⊢
  by_cases hl : skipTargets (parent.depth + 1) = []
  · rw [if_pos hl] at herr
    exact absurd herr (by simp)
  · rw [if_neg hl]
    constructor
    · show alook b.id (childPushed ft pid b.id).blocks = none
      unfold childPushed
      rw [alook_amodify_ne pid b.id _ ft.blocks hne]
      exact hnew
    · exact ⟨_, alook_amodify_self pid _ parent ft.blocks hpar, rfl⟩

/-- Witness for C9: on the chain 0 → 1 → 2 → 3, inserting block 4 fails with
`Query(InvalidAncestorDepth)`, block 4 is absent from the block map, and
block 3's children list has nevertheless been extended with 4. -/
theorem c9_witness :
    alook 4 (tree3.insert (chainBlock 4)).1.blocks = none ∧
    ∃ item, alook 3 (tree3.insert (chainBlock 4)).1.blocks = some item ∧
      item.children = [] ++ [4] :=
  c9_failed_insert_mutates tree3 (chainBlock 4) 3 ⟨⟨3, some 2⟩, 3, [], []⟩
    .InvalidAncestorDepth rfl rfl rfl rfl

/-- C10: `MemoryFlatState::apply` is atomic on error — when the block is
unknown to the fork tree it returns the fork tree's `UnknownBlock` error,
for any changeset including the empty one, and the stored state map is
unchanged, because the depth lookup precedes every write. -/
theorem c10_apply_unknown_block (s : MemoryFlatState)
    (changeset : List (Nat × Option Nat)) (block_id : Nat)
    (ft : MemoryForkTree) (h : alook block_id ft.blocks = none) :
    s.apply changeset block_id ft = (s, some .UnknownBlock) := by
  unfold MemoryFlatState.apply MemoryForkTree.block_depth
  rw [h]

/-- Witness for C10: applying the empty changeset at the unknown block 9 on
the empty fork tree fails with `UnknownBlock` and leaves the state intact. -/
theorem c10_witness :
    MemoryFlatState.new.apply [] 9 MemoryForkTree.new
      = (MemoryFlatState.new, some .UnknownBlock) :=
  c10_apply_unknown_block MemoryFlatState.new [] 9 MemoryForkTree.new rfl

end RustBlockchain
